import Mathlib

/-!
Verification of the genomic window-density counter
(`window-counter.py`).  The core under study is the function
`count_features_in_windows(coordinates_df, chr_lengths, window_size)`:
it iterates over the chromosomes of `chr_lengths` in sorted name order,
tiles each chromosome of length `L` into `L // window_size` full windows
plus one trailing window when `L % window_size > 0`, and counts, for each
half-open window `[s, e)`, the feature rows whose `start` satisfies
`s ≤ start < e`.

The embedding below mirrors that code over lists and mathematical
integers.  Python's `//` and `%` are floor division and floor remainder,
which are `Int.fdiv` and `Int.fmod`; Python's `sorted` on strings is a
stable ascending sort by code-point lexicographic order, modelled by
`List.insertionSort` over the executable comparison `strLe`; a pandas
dataframe is modelled as the list of its rows in order, and boolean-mask
filtering as `List.filter`.  The one fallible spot is `window_size = 0`
with a non-empty length map: there Python raises `ZeroDivisionError` on
the first `chr_length // window_size`, so the embedded function returns
`Option` and yields `none` exactly in that case.
-/

/-- One row of the coordinate table: fields `chromosome`, `start`, `end`
(written `«end»`), `id`, `type`, as produced by `parse_coordinates`. -/
structure FeatureRecord where
  chromosome : String
  start : Int
  «end» : Int
  id : String
  type : String
deriving DecidableEq, Repr

/-- One output row of `count_features_in_windows`: the dict
`{'chromosome': ..., 'window_start': ..., 'window_end': ..., 'feature_count': ...}`
appended to `results`. -/
structure WindowCountRecord where
  chromosome : String
  window_start : Int
  window_end : Int
  feature_count : Nat
deriving DecidableEq, Repr

/-- Executable code-point lexicographic `≤` on character lists, the order
Python uses to compare strings. -/
def charListLe (a b : List Char) : Bool :=
  match a, b with
  | [], _ => true
  | _ :: _, [] => false
  | c :: cs, d :: ds => if c < d then true else if d < c then false else charListLe cs ds

/-- Executable string comparison: Python's `<=` on `str`. -/
def strLe (a b : String) : Bool :=
  charListLe a.data b.data

/-- Python's `sorted` on a list of strings: a stable ascending sort. -/
def pySorted (xs : List String) : List String :=
  List.insertionSort (fun a b => strLe a b = true) xs

/-- The count
`len(chrom_data[(chrom_data['start'] >= window_start) & (chrom_data['start'] < window_end)])`
from lines 49-52 and 66-69 of the source. -/
def countStartsIn (rows : List FeatureRecord) (window_start window_end : Int) : Nat :=
  (rows.filter (fun r => window_start ≤ r.start ∧ r.start < window_end)).length

/-- The per-chromosome loop body of `count_features_in_windows`
(lines 40-76): `num_full_windows = chr_length // window_size`,
`remaining_bases = chr_length % window_size`, one record per full window
`[i*W, (i+1)*W)` for `i in range(num_full_windows)`, then one trailing
record `[num_full_windows*W, chr_length)` when `remaining_bases > 0`. -/
def chromWindows (chrom : String) (chrom_data : List FeatureRecord)
    (chr_length window_size : Int) : List WindowCountRecord :=
  let num_full_windows := Int.fdiv chr_length window_size
  let remaining_bases := Int.fmod chr_length window_size
  let full := (List.range num_full_windows.toNat).map (fun i =>
    { chromosome := chrom,
      window_start := (i : Int) * window_size,
      window_end := ((i : Int) + 1) * window_size,
      feature_count :=
        countStartsIn chrom_data ((i : Int) * window_size) (((i : Int) + 1) * window_size) })
  if remaining_bases > 0 then
    full ++ [{ chromosome := chrom,
               window_start := num_full_windows * window_size,
               window_end := chr_length,
               feature_count :=
                 countStartsIn chrom_data (num_full_windows * window_size) chr_length }]
  else full

/-- The `results` list built by the chromosome loop of
`count_features_in_windows` (lines 30-78): chromosomes of the length map
visited in sorted name order, each contributing its `chromWindows` rows
computed from its boolean-mask selection of the coordinate table. -/
def windowRows (coordinates_df : List FeatureRecord)
    (chr_lengths : List (String × Int)) (window_size : Int) : List WindowCountRecord :=
  (pySorted (chr_lengths.map Prod.fst)).flatMap (fun chrom =>
    match chr_lengths.lookup chrom with
    | some chr_length =>
        chromWindows chrom (coordinates_df.filter (fun r => r.chromosome == chrom))
          chr_length window_size
    | none => [])

/-- The core function `count_features_in_windows` (lines 26-78).  The
chromosome length dict is modelled as its association list
`chr_lengths` (insertion order, unique keys); the loop
`for chrom in sorted(chr_lengths.keys())` drives the output, and
`chr_lengths[chrom]` is `List.lookup`.  Python raises `ZeroDivisionError`
at `chr_length // window_size` when `window_size = 0` and at least one
chromosome is processed; the embedding returns `none` exactly there. -/
def count_features_in_windows (coordinates_df : List FeatureRecord)
    (chr_lengths : List (String × Int)) (window_size : Int) :
    Option (List WindowCountRecord) :=
  if window_size = 0 ∧ chr_lengths ≠ [] then none
  else some (windowRows coordinates_df chr_lengths window_size)

/-! ### Concrete fixtures, mirroring the embedded self-test data of the source -/

/-- The coordinate table of `test_window_counting` (lines 87-93). -/
def testDf : List FeatureRecord :=
  [⟨"Chr6", 1000, 2000, "ID1", "TYPE1"⟩,
   ⟨"Chr6", 2500, 3500, "ID2", "TYPE1"⟩,
   ⟨"Chr6", 9500, 11000, "ID3", "TYPE1"⟩,
   ⟨"Chr6", 9750, 10500, "ID4", "TYPE1"⟩,
   ⟨"Chr6", 15000, 16000, "ID5", "TYPE1"⟩,
   ⟨"Chr7", 500, 1500, "ID6", "TYPE1"⟩,
   ⟨"Chr7", 11000, 12000, "ID7", "TYPE1"⟩]

/-- A length map given in unsorted key order. -/
def testM : List (String × Int) :=
  [("Chr7", 15000), ("Chr6", 20000)]

/-- The output of the embedded counter on the fixtures with 10kb windows. -/
def testOut : List WindowCountRecord :=
  [⟨"Chr6", 0, 10000, 4⟩,
   ⟨"Chr6", 10000, 20000, 1⟩,
   ⟨"Chr7", 0, 10000, 1⟩,
   ⟨"Chr7", 10000, 15000, 1⟩]

/-! ### The string order `strLe` agrees with the library order on `String` -/

theorem charListLe_iff_not_lex (x y : List Char) :
    charListLe x y = true ↔ ¬ List.Lex (fun c d => c < d) y x := by
  induction x generalizing y with
  | nil =>
    exact iff_of_true rfl (fun h => List.Lex.not_nil_right _ _ h)
  | cons c cs ih =>
    cases y with
    | nil =>
      refine iff_of_false ?_ (fun h => h List.Lex.nil)
      show ¬ (false = true)
      simp
    | cons d ds =>
      show (if c < d then true else if d < c then false else charListLe cs ds) = true ↔ _
      by_cases hcd : c < d
      · rw [if_pos hcd]
        refine iff_of_true rfl (fun h => ?_)
        cases h with
        | cons h1 => exact lt_irrefl _ hcd
        | rel h1 => exact absurd h1 (asymm hcd)
      · rw [if_neg hcd]
        by_cases hdc : d < c
        · rw [if_pos hdc]
          refine iff_of_false ?_ (fun h => h (List.Lex.rel hdc))
          show ¬ (false = true)
          simp
        · rw [if_neg hdc]
          have hce : c = d := le_antisymm (le_of_not_lt hdc) (le_of_not_lt hcd)
          subst hce
          rw [ih ds]
          constructor
          · intro h hlex
            cases hlex with
            | cons h1 => exact h h1
            | rel h1 => exact lt_irrefl _ h1
          · intro h hlex
            exact h (List.Lex.cons hlex)

theorem strLe_iff_le (a b : String) : strLe a b = true ↔ a ≤ b := by
  rw [← not_lt, String.lt_iff_toList_lt]
  exact charListLe_iff_not_lex a.data b.data

instance strLeRelTotal : IsTotal String (fun a b => strLe a b = true) := by
  constructor
  intro a b
  rw [strLe_iff_le, strLe_iff_le]
  exact le_total a b

instance strLeRelTrans : IsTrans String (fun a b => strLe a b = true) := by
  constructor
  intro a b c hab hbc
  rw [strLe_iff_le] at hab hbc ⊢
  exact le_trans hab hbc

/-! ### Structural lemmas about the embedded counter -/

theorem countStartsIn_cons (r : FeatureRecord) (rows : List FeatureRecord) (ws we : Int) :
    countStartsIn (r :: rows) ws we =
      (if ws ≤ r.start ∧ r.start < we then 1 else 0) + countStartsIn rows ws we := by
  simp only [countStartsIn, List.filter_cons]
  split
  · rename_i h
    rw [if_pos (by exact of_decide_eq_true h)]
    simp [Nat.add_comm]
  · rename_i h
    rw [if_neg (fun hp => h (decide_eq_true hp))]
    simp

theorem mem_chromWindows {w : WindowCountRecord} {c : String} {d : List FeatureRecord}
    {L W : Int} (h : w ∈ chromWindows c d L W) :
    w.chromosome = c ∧ w.feature_count = countStartsIn d w.window_start w.window_end := by
  simp only [chromWindows] at h
  split at h
  · rcases List.mem_append.1 h with h1 | h1
    · rcases List.mem_map.1 h1 with ⟨i, _, rfl⟩
      exact ⟨rfl, rfl⟩
    · rcases List.mem_singleton.1 h1 with rfl
      exact ⟨rfl, rfl⟩
  · rcases List.mem_map.1 h with ⟨i, _, rfl⟩
    exact ⟨rfl, rfl⟩

theorem lookup_mem {m : List (String × Int)} {c : String} {L : Int}
    (h : m.lookup c = some L) : (c, L) ∈ m := by
  induction m with
  | nil => simp [List.lookup] at h
  | cons p m ih =>
    rcases p with ⟨k, v⟩
    rw [List.lookup_cons] at h
    by_cases hck : c = k
    · subst hck
      simp at h
      subst h
      exact List.mem_cons_self _ _
    · have : (c == k) = false := beq_eq_false_iff_ne.2 hck
      rw [this] at h
      exact List.mem_cons_of_mem _ (ih h)

theorem lookup_of_mem_nodup {m : List (String × Int)} {c : String} {L : Int}
    (hnd : (m.map Prod.fst).Nodup) (hmem : (c, L) ∈ m) : m.lookup c = some L := by
  induction m with
  | nil => simp at hmem
  | cons p m ih =>
    rcases p with ⟨k, v⟩
    rw [List.map_cons, List.nodup_cons] at hnd
    rw [List.lookup_cons]
    rcases List.mem_cons.1 hmem with h1 | h1
    · rcases Prod.mk.injEq .. ▸ h1 with ⟨rfl, rfl⟩
      simp
    · have hck : c ≠ k := by
        rintro rfl
        exact hnd.1 (List.mem_map.2 ⟨(c, L), h1, rfl⟩)
      have : (c == k) = false := beq_eq_false_iff_ne.2 hck
      rw [this]
      exact ih hnd.2 h1

theorem count_eq_some {df : List FeatureRecord} {m : List (String × Int)} {W : Int}
    {out : List WindowCountRecord} (h : count_features_in_windows df m W = some out) :
    out = windowRows df m W := by
  unfold count_features_in_windows at h
  split at h
  · exact absurd h (by simp)
  · exact (Option.some.injEq .. ▸ h).symm

theorem flatMap_filter_eq_nil {ks : List String} {f : String → List WindowCountRecord}
    {c : String} (hf : ∀ k ∈ ks, ∀ w ∈ f k, w.chromosome = k) (hc : c ∉ ks) :
    ks.flatMap (fun k => (f k).filter (fun w => w.chromosome == c)) = [] := by
  induction ks with
  | nil => rfl
  | cons k ks ih =>
    rw [List.flatMap_cons]
    have hkc : k ≠ c := fun h => hc (h ▸ List.mem_cons_self k ks)
    rw [List.filter_eq_nil_iff.2 ?_, List.nil_append]
    · exact ih (fun k' hk' => hf k' (List.mem_cons_of_mem _ hk'))
        (fun h => hc (List.mem_cons_of_mem _ h))
    · intro w hw
      rw [beq_iff_eq, hf k (List.mem_cons_self k ks) w hw]
      exact hkc

theorem flatMap_filter_key {ks : List String} {f : String → List WindowCountRecord}
    {c : String} (hf : ∀ k ∈ ks, ∀ w ∈ f k, w.chromosome = k) (hnd : ks.Nodup)
    (hc : c ∈ ks) :
    ks.flatMap (fun k => (f k).filter (fun w => w.chromosome == c)) = f c := by
  induction ks with
  | nil => exact absurd hc (List.not_mem_nil c)
  | cons k ks ih =>
    rw [List.flatMap_cons]
    rcases List.nodup_cons.1 hnd with ⟨hknin, hnd2⟩
    by_cases hkc : k = c
    · subst hkc
      rw [List.filter_eq_self.2 ?_, flatMap_filter_eq_nil
          (fun k' hk' => hf k' (List.mem_cons_of_mem _ hk')) hknin, List.append_nil]
      intro w hw
      rw [beq_iff_eq]
      exact hf k (List.mem_cons_self k ks) w hw
    · have hcks : c ∈ ks := by
        rcases List.mem_cons.1 hc with h | h
        · exact absurd h.symm hkc
        · exact h
      rw [List.filter_eq_nil_iff.2 ?_, List.nil_append]
      · exact ih (fun k' hk' => hf k' (List.mem_cons_of_mem _ hk')) hnd2 hcks
      · intro w hw
        rw [beq_iff_eq, hf k (List.mem_cons_self k ks) w hw]
        exact hkc

theorem pySorted_perm (xs : List String) : (pySorted xs).Perm xs :=
  List.perm_insertionSort _ xs

theorem windowRows_filter_chrom (df : List FeatureRecord) {m : List (String × Int)}
    (W : Int) {c : String} {L : Int}
    (hnd : (m.map Prod.fst).Nodup) (hmem : (c, L) ∈ m) :
    (windowRows df m W).filter (fun w => w.chromosome == c) =
      chromWindows c (df.filter (fun r => r.chromosome == c)) L W := by
  unfold windowRows
  rw [List.filter_flatMap]
  have hperm := pySorted_perm (m.map Prod.fst)
  have hnd2 : (pySorted (m.map Prod.fst)).Nodup := hperm.nodup_iff.2 hnd
  have hc : c ∈ pySorted (m.map Prod.fst) :=
    hperm.mem_iff.2 (List.mem_map.2 ⟨(c, L), hmem, rfl⟩)
  have hlook : m.lookup c = some L := lookup_of_mem_nodup hnd hmem
  rw [flatMap_filter_key ?_ hnd2 hc]
  · rw [hlook]
  · intro k hk w hw
    rcases hcase : m.lookup k with _ | L2
    · rw [hcase] at hw
      exact absurd hw (List.not_mem_nil w)
    · rw [hcase] at hw
      exact (mem_chromWindows hw).1

theorem chromWindows_length (c : String) (d : List FeatureRecord) (L W : Int) :
    (chromWindows c d L W).length =
      (Int.fdiv L W).toNat + (if 0 < Int.fmod L W then 1 else 0) := by
  simp only [chromWindows]
  split
  · simp
  · simp

theorem chromWindows_getElem {c : String} {d : List FeatureRecord} {L W : Int}
    (hW : 0 < W) (hL : 0 ≤ L) (i : Nat) (h : i < (chromWindows c d L W).length) :
    (chromWindows c d L W)[i] =
      { chromosome := c,
        window_start := (i : Int) * W,
        window_end := min (((i : Int) + 1) * W) L,
        feature_count := countStartsIn d ((i : Int) * W) (min (((i : Int) + 1) * W) L) } := by
  have hWne : W ≠ 0 := ne_of_gt hW
  have hdiv : Int.fdiv L W = L / W := Int.fdiv_eq_ediv L (le_of_lt hW)
  have hq0 : 0 ≤ L / W := Int.ediv_nonneg hL (le_of_lt hW)
  have hqW : L / W * W ≤ L := Int.ediv_mul_le L hWne
  have hLlt : L < (L / W + 1) * W := Int.lt_ediv_add_one_mul_self L hW
  have hcast : ((Int.fdiv L W).toNat : Int) = Int.fdiv L W := by
    rw [hdiv, Int.toNat_of_nonneg hq0]
  have hfull : ∀ j : Nat, j < (Int.fdiv L W).toNat → ((j : Int) + 1) * W ≤ L := by
    intro j hj
    have hj0 : ((j : Int)) < (((Int.fdiv L W).toNat : Nat) : Int) := Nat.cast_lt.2 hj
    have hj2 : (j : Int) + 1 ≤ L / W := by
      rw [hcast, hdiv] at hj0
      omega
    calc ((j : Int) + 1) * W ≤ L / W * W :=
          mul_le_mul_of_nonneg_right hj2 (le_of_lt hW)
      _ ≤ L := hqW
  have hrange : ∀ j : Nat, j < (Int.fdiv L W).toNat → ((j : Int) + 1) ≤ L / W := by
    intro j hj
    have := Int.lt_toNat.2 ((hcast.trans hdiv) ▸ (Nat.cast_lt.2 hj))
    omega
  simp only [chromWindows] at h ⊢
  by_cases hrem : Int.fmod L W > 0
  · simp only [if_pos hrem] at h ⊢
    simp only [List.length_append, List.length_map, List.length_range,
      List.length_singleton] at h
    by_cases hi : i < (Int.fdiv L W).toNat
    · rw [List.getElem_append_left (by simpa using hi), List.getElem_map,
        List.getElem_range, min_eq_left (hfull i hi)]
    · have hi2 : i = (Int.fdiv L W).toNat := by omega
      subst hi2
      rw [List.getElem_append_right (by simp)]
      simp only [List.length_map, List.length_range, Nat.sub_self,
        List.getElem_cons_zero]
      have hmin : min ((((Int.fdiv L W).toNat : Int) + 1) * W) L = L := by
        rw [hcast, hdiv]
        exact min_eq_right (le_of_lt hLlt)
      rw [hmin, hcast]
  · simp only [if_neg hrem] at h ⊢
    simp only [List.length_map, List.length_range] at h
    rw [List.getElem_map, List.getElem_range, min_eq_left (hfull i h)]

theorem chromWindows_congr {c : String} {d1 d2 : List FeatureRecord} {L W : Int}
    (hfull : ∀ i : Nat, i < (Int.fdiv L W).toNat →
      countStartsIn d1 ((i : Int) * W) (((i : Int) + 1) * W) =
        countStartsIn d2 ((i : Int) * W) (((i : Int) + 1) * W))
    (hpart : 0 < Int.fmod L W →
      countStartsIn d1 (Int.fdiv L W * W) L = countStartsIn d2 (Int.fdiv L W * W) L) :
    chromWindows c d1 L W = chromWindows c d2 L W := by
  simp only [chromWindows]
  by_cases hrem : Int.fmod L W > 0
  · simp only [if_pos hrem]
    congr 1
    · apply List.map_congr_left
      intro i hi
      rw [hfull i (List.mem_range.1 hi)]
    · rw [hpart hrem]
  · simp only [if_neg hrem]
    apply List.map_congr_left
    intro i hi
    rw [hfull i (List.mem_range.1 hi)]

theorem windowRows_eq_of_filter_eq {df1 df2 : List FeatureRecord}
    {m : List (String × Int)} {W : Int}
    (hagree : ∀ k ∈ m.map Prod.fst,
      df1.filter (fun r => r.chromosome == k) = df2.filter (fun r => r.chromosome == k)) :
    windowRows df1 m W = windowRows df2 m W := by
  unfold windowRows
  apply List.flatMap_congr
  intro k hk
  have hk2 : k ∈ m.map Prod.fst := (pySorted_perm _).subset hk
  rcases hcase : m.lookup k with _ | L
  · rfl
  · show chromWindows k (df1.filter (fun r => r.chromosome == k)) L W =
      chromWindows k (df2.filter (fun r => r.chromosome == k)) L W
    rw [hagree k hk2]

theorem countStartsIn_filter_forall2 {d1 d2 : List FeatureRecord}
    (h : List.Forall₂ (fun a b => a.chromosome = b.chromosome ∧ a.start = b.start) d1 d2)
    (c : String) (ws we : Int) :
    countStartsIn (d1.filter (fun r => r.chromosome == c)) ws we =
      countStartsIn (d2.filter (fun r => r.chromosome == c)) ws we := by
  induction h with
  | nil => rfl
  | @cons a b l1 l2 hab hrest ih =>
    obtain ⟨hc, hs⟩ := hab
    simp only [List.filter_cons]
    by_cases h1 : (a.chromosome == c) = true
    · rw [if_pos h1, if_pos (by rw [← hc]; exact h1), countStartsIn_cons,
        countStartsIn_cons, hs, ih]
    · rw [if_neg h1, if_neg (by rw [← hc]; exact h1)]
      exact ih

theorem countStartsIn_filter_dropneg {df1 df2 : List FeatureRecord} {r : FeatureRecord}
    {c : String} {ws we : Int} (hws : ¬ ws ≤ r.start) :
    countStartsIn ((df1 ++ r :: df2).filter (fun x => x.chromosome == c)) ws we =
      countStartsIn ((df1 ++ df2).filter (fun x => x.chromosome == c)) ws we := by
  rw [List.filter_append, List.filter_append, List.filter_cons]
  by_cases h1 : (r.chromosome == c) = true
  · rw [if_pos h1]
    simp only [countStartsIn, List.filter_append, List.filter_cons]
    rw [if_neg (fun hq => hws (of_decide_eq_true hq).1)]
  · rw [if_neg h1]

theorem fdiv_neg_of_pos_of_neg {L W : Int} (hL : 0 < L) (hW : W < 0) : Int.fdiv L W < 0 := by
  obtain ⟨m, rfl⟩ : ∃ m : Nat, L = ((m + 1 : Nat) : Int) := ⟨L.toNat - 1, by omega⟩
  obtain ⟨n, rfl⟩ : ∃ n : Nat, W = Int.negSucc n :=
    ⟨(-W - 1).toNat, by rw [Int.negSucc_eq]; omega⟩
  exact Int.negSucc_lt_zero _

theorem fmod_nonpos_of_pos_of_neg {L W : Int} (hL : 0 < L) (hW : W < 0) :
    Int.fmod L W ≤ 0 := by
  obtain ⟨m, rfl⟩ : ∃ m : Nat, L = ((m + 1 : Nat) : Int) := ⟨L.toNat - 1, by omega⟩
  obtain ⟨n, rfl⟩ : ∃ n : Nat, W = Int.negSucc n :=
    ⟨(-W - 1).toNat, by rw [Int.negSucc_eq]; omega⟩
  show Int.subNatNat (m % (n + 1)) n ≤ 0
  rw [Int.subNatNat_eq_coe]
  have hlt : m % (n + 1) < n + 1 := Nat.mod_lt m (Nat.succ_pos n)
  omega

theorem chromWindows_eq_nil_of_neg (c : String) (d : List FeatureRecord) {L W : Int}
    (hL : 0 < L) (hW : W < 0) : chromWindows c d L W = [] := by
  have h1 := fdiv_neg_of_pos_of_neg hL hW
  have h2 := fmod_nonpos_of_pos_of_neg hL hW
  simp only [chromWindows]
  rw [if_neg (by omega)]
  have h3 : (Int.fdiv L W).toNat = 0 := by omega
  rw [h3]
  rfl

/-! ### The claims -/

/-- C1: for every emitted window record `[s, e)` of a chromosome, its
`feature_count` equals the number of coordinate-table rows on that
chromosome whose `start` satisfies `s ≤ start < e`; in particular a
feature whose start equals a window boundary is counted in the window
beginning at that boundary, not the preceding one. -/
theorem claim_C1_per_window_count (df : List FeatureRecord) (m : List (String × Int))
    (W : Int) (out : List WindowCountRecord)
    (h : count_features_in_windows df m W = some out) :
    ∀ w ∈ out, w.feature_count = (df.filter (fun r =>
      r.chromosome = w.chromosome ∧ w.window_start ≤ r.start ∧
        r.start < w.window_end)).length := by
  intro w hw
  rw [count_eq_some h] at hw
  unfold windowRows at hw
  rcases List.mem_flatMap.1 hw with ⟨k, hk, hwk⟩
  rcases hcase : m.lookup k with _ | L
  · rw [hcase] at hwk
    exact absurd hwk (List.not_mem_nil w)
  · rw [hcase] at hwk
    have hwk2 : w ∈ chromWindows k (df.filter (fun r => r.chromosome == k)) L W := hwk
    obtain ⟨hchrom, hcount⟩ := mem_chromWindows hwk2
    rw [hcount]
    simp only [countStartsIn, List.filter_filter]
    congr 1
    apply List.filter_congr
    intro r _
    rw [hchrom]
    by_cases h1 : r.chromosome = k <;> by_cases h2 : w.window_start ≤ r.start <;>
      by_cases h3 : r.start < w.window_end <;> simp [h1, h2, h3]

/-- Witness for C1 at the fixture run: the partial `Chr7` window
`[10000, 15000)` holds exactly the one feature starting at 11000. -/
theorem claim_C1_per_window_count_witness :
    (⟨"Chr7", 10000, 15000, 1⟩ : WindowCountRecord).feature_count =
      (testDf.filter (fun r =>
        r.chromosome = (⟨"Chr7", 10000, 15000, 1⟩ : WindowCountRecord).chromosome ∧
        (⟨"Chr7", 10000, 15000, 1⟩ : WindowCountRecord).window_start ≤ r.start ∧
        r.start < (⟨"Chr7", 10000, 15000, 1⟩ : WindowCountRecord).window_end)).length :=
  claim_C1_per_window_count testDf testM 10000 testOut (by decide) _ (by decide)

/-- C6: a feature record whose chromosome is absent from the length map
contributes to no window and to no output record, raising no error: the
output on a table containing it is identical to the output with it
removed. -/
theorem claim_C6_unknown_chromosome_dropped (df1 df2 : List FeatureRecord)
    (r : FeatureRecord) (m : List (String × Int)) (W : Int)
    (h : r.chromosome ∉ m.map Prod.fst) :
    count_features_in_windows (df1 ++ r :: df2) m W =
      count_features_in_windows (df1 ++ df2) m W := by
  have hagree : ∀ k ∈ m.map Prod.fst,
      (df1 ++ r :: df2).filter (fun x => x.chromosome == k) =
        (df1 ++ df2).filter (fun x => x.chromosome == k) := by
    intro k hk
    have hne : ¬ ((r.chromosome == k) = true) := by
      intro hbeq
      exact h ((beq_iff_eq.1 hbeq) ▸ hk)
    rw [List.filter_append, List.filter_append, List.filter_cons, if_neg hne]
  unfold count_features_in_windows
  rw [windowRows_eq_of_filter_eq hagree]

/-- Witness for C6: a record on the unknown chromosome `ChrX` leaves the
fixture output unchanged. -/
theorem claim_C6_unknown_chromosome_dropped_witness :
    count_features_in_windows
        (testDf ++ (⟨"ChrX", 5, 6, "IDX", "TYPE9"⟩ : FeatureRecord) :: []) testM 10000 =
      count_features_in_windows (testDf ++ []) testM 10000 :=
  claim_C6_unknown_chromosome_dropped testDf [] _ testM 10000 (by decide)

/-- C8: two coordinate tables whose rows agree pointwise on `chromosome`
and `start` (but may differ in `end`, `id` and `type`) give identical
output for the same length map and window size. -/
theorem claim_C8_counts_ignore_end_id_type (df1 df2 : List FeatureRecord)
    (m : List (String × Int)) (W : Int)
    (h : List.Forall₂ (fun a b => a.chromosome = b.chromosome ∧ a.start = b.start) df1 df2) :
    count_features_in_windows df1 m W = count_features_in_windows df2 m W := by
  unfold count_features_in_windows
  have hrows : windowRows df1 m W = windowRows df2 m W := by
    unfold windowRows
    apply List.flatMap_congr
    intro k hk
    rcases hcase : m.lookup k with _ | L
    · rfl
    · show chromWindows k (df1.filter (fun r => r.chromosome == k)) L W =
        chromWindows k (df2.filter (fun r => r.chromosome == k)) L W
      apply chromWindows_congr
      · intro i _
        exact countStartsIn_filter_forall2 h k _ _
      · intro _
        exact countStartsIn_filter_forall2 h k _ _
  rw [hrows]

/-- Witness for C8: perturbing every `end`, `id` and `type` of the
fixture table leaves the output unchanged. -/
theorem claim_C8_counts_ignore_end_id_type_witness :
    count_features_in_windows testDf testM 10000 =
      count_features_in_windows
        [⟨"Chr6", 1000, 99, "A", "Z"⟩,
         ⟨"Chr6", 2500, 98, "B", "Z"⟩,
         ⟨"Chr6", 9500, 97, "C", "Z"⟩,
         ⟨"Chr6", 9750, 96, "D", "Z"⟩,
         ⟨"Chr6", 15000, 95, "E", "Z"⟩,
         ⟨"Chr7", 500, 94, "F", "Z"⟩,
         ⟨"Chr7", 11000, 93, "G", "Z"⟩] testM 10000 :=
  claim_C8_counts_ignore_end_id_type testDf _ testM 10000
    (by simp [testDf, List.forall₂_cons])

/-- C9: the counter is deterministic; identical inputs give identical
outputs in identical order (the embedded computation is a pure function
of the coordinate table, the length map and the window size). -/
theorem claim_C9_deterministic (df1 df2 : List FeatureRecord)
    (m1 m2 : List (String × Int)) (W1 W2 : Int)
    (hdf : df1 = df2) (hm : m1 = m2) (hW : W1 = W2) :
    count_features_in_windows df1 m1 W1 = count_features_in_windows df2 m2 W2 := by
  rw [hdf, hm, hW]

/-- Witness for C9 at the fixture run. -/
theorem claim_C9_deterministic_witness :
    count_features_in_windows testDf testM 10000 =
      count_features_in_windows testDf testM 10000 :=
  claim_C9_deterministic testDf testDf testM testM 10000 10000 rfl rfl rfl

/-- C10: a feature record with a negative start coordinate is counted in
no window (every emitted window starts at a non-negative coordinate, and
counting requires `window_start ≤ start`) and raises no error: the output
is identical to the output with that record removed.  Lengths are
non-negative and the window size positive, per the data model. -/
theorem claim_C10_negative_start_ignored (df1 df2 : List FeatureRecord)
    (r : FeatureRecord) (m : List (String × Int)) (W : Int) (hW : 0 < W)
    (hlen : ∀ p ∈ m, 0 ≤ p.2) (hr : r.start < 0) :
    count_features_in_windows (df1 ++ r :: df2) m W =
      count_features_in_windows (df1 ++ df2) m W := by
  unfold count_features_in_windows
  have hrows : windowRows (df1 ++ r :: df2) m W = windowRows (df1 ++ df2) m W := by
    unfold windowRows
    apply List.flatMap_congr
    intro k hk
    rcases hcase : m.lookup k with _ | L
    · rfl
    · have hL : 0 ≤ L := hlen (k, L) (lookup_mem hcase)
      show chromWindows k ((df1 ++ r :: df2).filter (fun x => x.chromosome == k)) L W =
        chromWindows k ((df1 ++ df2).filter (fun x => x.chromosome == k)) L W
      apply chromWindows_congr
      · intro i _
        apply countStartsIn_filter_dropneg
        have hpos : (0 : Int) ≤ (i : Int) * W :=
          mul_nonneg (Int.natCast_nonneg i) (le_of_lt hW)
        omega
      · intro _
        apply countStartsIn_filter_dropneg
        have h1 : 0 ≤ Int.fdiv L W := Int.fdiv_nonneg hL (le_of_lt hW)
        have hpos : (0 : Int) ≤ Int.fdiv L W * W := mul_nonneg h1 (le_of_lt hW)
        omega
  rw [hrows]

/-- Witness for C10: a record starting at -42 on `Chr6` leaves the
fixture output unchanged. -/
theorem claim_C10_negative_start_ignored_witness :
    count_features_in_windows
        (testDf ++ (⟨"Chr6", -42, 0, "IDN", "TYPE1"⟩ : FeatureRecord) :: []) testM 10000 =
      count_features_in_windows (testDf ++ []) testM 10000 :=
  claim_C10_negative_start_ignored testDf [] _ testM 10000 (by decide)
    (by decide) (by decide)

/-- C7 counterexample: the claim says every zero-or-negative window size
fails fast, but with window size -3 the counter silently returns a normal
(empty) result rather than signalling any error. -/
theorem claim_C7_counterexample :
    ((-3 : Int) < 0) ∧
      count_features_in_windows [] [("chr1", 10)] (-3) = some [] := by
  constructor
  · decide
  · decide

/-- C7 amended: window size 0 does fail fast (a `ZeroDivisionError` at the
first `chr_length // window_size`, provided the length map is non-empty),
but a negative window size is not rejected: the counter silently returns a
result — an empty output when every chromosome length is positive. -/
theorem claim_C7_zero_fails_negative_silent (df : List FeatureRecord)
    (m : List (String × Int)) (W : Int) :
    (m ≠ [] → count_features_in_windows df m 0 = none) ∧
      (W < 0 → (∀ p ∈ m, 0 < p.2) → count_features_in_windows df m W = some []) := by
  constructor
  · intro hm
    unfold count_features_in_windows
    rw [if_pos ⟨rfl, hm⟩]
  · intro hW hpos
    unfold count_features_in_windows
    rw [if_neg (fun hc => absurd hc.1 (by omega))]
    have hnil : windowRows df m W = [] := by
      unfold windowRows
      rw [List.flatMap_eq_nil_iff]
      intro k hk
      rcases hcase : m.lookup k with _ | L
      · rfl
      · have hL : 0 < L := hpos (k, L) (lookup_mem hcase)
        show chromWindows k (df.filter (fun r => r.chromosome == k)) L W = []
        exact chromWindows_eq_nil_of_neg _ _ hL hW
    rw [hnil]

/-- Witness for the amended C7: window size 0 on a one-chromosome map
fails, window size -3 returns the empty output. -/
theorem claim_C7_zero_fails_negative_silent_witness :
    (count_features_in_windows [] [("chr1", 10)] 0 = none) ∧
      (count_features_in_windows [] [("chr1", 10)] (-3) = some []) :=
  ⟨(claim_C7_zero_fails_negative_silent [] [("chr1", 10)] (-3)).1 (by decide),
   (claim_C7_zero_fails_negative_silent [] [("chr1", 10)] (-3)).2 (by decide) (by decide)⟩

theorem ceil_div_eq {L W : Int} (hW : 0 < W) (hL : 0 ≤ L) :
    (L / W).toNat + (if 0 < L % W then 1 else 0) = ((L + W - 1) / W).toNat := by
  have hq := Int.ediv_add_emod L W
  have hr0 : 0 ≤ L % W := Int.emod_nonneg L (ne_of_gt hW)
  have hrW : L % W < W := Int.emod_lt_of_pos L hW
  have hq0 : 0 ≤ L / W := Int.ediv_nonneg hL (le_of_lt hW)
  by_cases hr : 0 < L % W
  · rw [if_pos hr]
    have h2 : W * (L / W + 1) = W * (L / W) + W := by ring
    have hsplit : L + W - 1 = (L % W - 1) + W * (L / W + 1) := by
      rw [h2]
      linarith
    have hz : (L % W - 1) / W = 0 := Int.ediv_eq_zero_of_lt (by linarith) (by linarith)
    rw [hsplit, Int.add_mul_ediv_left _ _ (ne_of_gt hW), hz, zero_add,
      Int.toNat_add hq0 (by norm_num)]
    rfl
  · rw [if_neg hr]
    have hr1 : L % W = 0 := le_antisymm (not_lt.1 hr) hr0
    have hsplit : L + W - 1 = (W - 1) + W * (L / W) := by linarith
    have hz : (W - 1) / W = 0 := Int.ediv_eq_zero_of_lt (by linarith) (by linarith)
    rw [hsplit, Int.add_mul_ediv_left _ _ (ne_of_gt hW), hz, zero_add, Nat.add_zero]

theorem chromWindows_length_fdiv (c : String) (d : List FeatureRecord) (L W : Int)
    (hW : 0 < W) :
    (chromWindows c d L W).length = (L / W).toNat + (if 0 < L % W then 1 else 0) := by
  rw [chromWindows_length, Int.fdiv_eq_ediv _ (le_of_lt hW),
    Int.fmod_eq_emod _ (le_of_lt hW)]

theorem chromWindows_length_ceil (c : String) (d : List FeatureRecord) {L W : Int}
    (hW : 0 < W) (hL : 0 ≤ L) :
    (chromWindows c d L W).length = ((L + W - 1) / W).toNat := by
  rw [chromWindows_length_fdiv c d L W hW, ceil_div_eq hW hL]

theorem chromWindows_ne_nil (c : String) (d : List FeatureRecord) {L W : Int}
    (hW : 0 < W) (hL : 0 < L) : chromWindows c d L W ≠ [] := by
  intro hnil
  have h0 : (chromWindows c d L W).length = 0 := by rw [hnil]; rfl
  rw [chromWindows_length_ceil c d hW (le_of_lt hL), Int.toNat_eq_zero] at h0
  have h1 : (1 : Int) ≤ (L + W - 1) / W := (Int.le_ediv_iff_mul_le hW).2 (by linarith)
  linarith

theorem chromWindows_L_le (c : String) (d : List FeatureRecord) (L W : Int)
    (hW : 0 < W) (hL : 0 ≤ L) :
    L ≤ ((chromWindows c d L W).length : Int) * W := by
  rw [chromWindows_length_fdiv c d L W hW]
  have hq := Int.ediv_add_emod L W
  have hr0 : 0 ≤ L % W := Int.emod_nonneg L (ne_of_gt hW)
  have hq0 : 0 ≤ L / W := Int.ediv_nonneg hL (le_of_lt hW)
  by_cases hr : 0 < L % W
  · rw [if_pos hr]
    have hcast : (((L / W).toNat + 1 : Nat) : Int) = L / W + 1 := by
      push_cast [Int.toNat_of_nonneg hq0]
      ring
    rw [hcast]
    have h1 := Int.lt_ediv_add_one_mul_self L hW
    linarith
  · rw [if_neg hr]
    have hr1 : L % W = 0 := le_antisymm (not_lt.1 hr) hr0
    have hcast : (((L / W).toNat + 0 : Nat) : Int) = L / W := by
      push_cast [Int.toNat_of_nonneg hq0]
      ring
    rw [hcast]
    have h2 : (L / W) * W = W * (L / W) := by ring
    linarith

theorem chromWindows_full_end {L W : Int} (hW : 0 < W) (hL : 0 ≤ L) {i : Nat}
    (hi1 : i + 1 ≤ (L / W).toNat) : ((i : Int) + 1) * W ≤ L := by
  have hq0 : 0 ≤ L / W := Int.ediv_nonneg hL (le_of_lt hW)
  have h1 : ((i : Int) + 1) ≤ L / W := by
    have h2 : ((i + 1 : Nat) : Int) ≤ (((L / W).toNat : Nat) : Int) := Nat.cast_le.2 hi1
    push_cast [Int.toNat_of_nonneg hq0] at h2
    linarith
  calc ((i : Int) + 1) * W ≤ (L / W) * W := mul_le_mul_of_nonneg_right h1 (le_of_lt hW)
    _ ≤ L := Int.ediv_mul_le L (ne_of_gt hW)

theorem chromWindows_length_le (c : String) (d : List FeatureRecord) (L W : Int)
    (hW : 0 < W) : (chromWindows c d L W).length ≤ (L / W).toNat + 1 := by
  rw [chromWindows_length_fdiv c d L W hW]
  split <;> omega

theorem chromWindows_get_start {c : String} {d : List FeatureRecord} {L W : Int}
    (hW : 0 < W) (hL : 0 ≤ L) (i : Nat) (h : i < (chromWindows c d L W).length) :
    ((chromWindows c d L W).get ⟨i, h⟩).window_start = (i : Int) * W := by
  rw [List.get_eq_getElem, chromWindows_getElem hW hL i h]

theorem chromWindows_get_end {c : String} {d : List FeatureRecord} {L W : Int}
    (hW : 0 < W) (hL : 0 ≤ L) (i : Nat) (h : i < (chromWindows c d L W).length) :
    ((chromWindows c d L W).get ⟨i, h⟩).window_end = min (((i : Int) + 1) * W) L := by
  rw [List.get_eq_getElem, chromWindows_getElem hW hL i h]

theorem chromWindows_getLast_end (c : String) (d : List FeatureRecord) {L W : Int}
    (hW : 0 < W) (hL : 0 < L) (hne : chromWindows c d L W ≠ []) :
    ((chromWindows c d L W).getLast hne).window_end = L := by
  have hlen0 : 0 < (chromWindows c d L W).length := List.length_pos.2 hne
  have hLle := chromWindows_L_le c d L W hW (le_of_lt hL)
  rw [List.getLast_eq_getElem, chromWindows_getElem hW (le_of_lt hL) _ (by omega)]
  show min (((((chromWindows c d L W).length - 1 : Nat) : Int) + 1) * W) L = L
  have hc : (((chromWindows c d L W).length - 1 : Nat) : Int) + 1 =
      ((chromWindows c d L W).length : Int) := by omega
  rw [hc]
  exact min_eq_right hLle

/-- C2: for a chromosome of the length map with length `L > 0` and window
size `W > 0` the counter emits exactly `ceil(L / W)` window records for
that chromosome, and the last of them ends exactly at `L`; a chromosome
of length 0 gets no windows; and when `L < W` exactly one partial window
spanning `[0, L)` is emitted. -/
theorem claim_C2_ceil_window_count (df : List FeatureRecord) (m : List (String × Int))
    (W : Int) (c : String) (L : Int) (out : List WindowCountRecord)
    (hnd : (m.map Prod.fst).Nodup) (hmem : (c, L) ∈ m) (hW : 0 < W)
    (h : count_features_in_windows df m W = some out) :
    (0 < L → (out.filter (fun w => w.chromosome == c)).length = ((L + W - 1) / W).toNat ∧
      ∃ wlast, (out.filter (fun w => w.chromosome == c)).getLast? = some wlast ∧
        wlast.window_end = L) ∧
    (L = 0 → out.filter (fun w => w.chromosome == c) = []) ∧
    (0 < L → L < W → (out.filter (fun w => w.chromosome == c)).map
        (fun w => (w.window_start, w.window_end)) = [(0, L)]) := by
  have hws : out.filter (fun w => w.chromosome == c) =
      chromWindows c (df.filter (fun r => r.chromosome == c)) L W := by
    rw [count_eq_some h]
    exact windowRows_filter_chrom df W hnd hmem
  rw [hws]
  refine ⟨?_, ?_, ?_⟩
  · intro hL
    refine ⟨chromWindows_length_ceil _ _ hW (le_of_lt hL), ?_⟩
    have hne := chromWindows_ne_nil c (df.filter (fun r => r.chromosome == c)) hW hL
    exact ⟨_, List.getLast?_eq_getLast _ hne, chromWindows_getLast_end _ _ hW hL hne⟩
  · intro hL
    subst hL
    have h1 : Int.fdiv 0 W = 0 := Int.zero_fdiv W
    have h2 : Int.fmod 0 W = 0 := Int.zero_fmod W
    simp only [chromWindows, h1, h2]
    rw [if_neg (by omega)]
    simp
  · intro hL hLW
    have hlen : (chromWindows c (df.filter (fun r => r.chromosome == c)) L W).length = 1 := by
      rw [chromWindows_length_ceil _ _ hW (le_of_lt hL)]
      have hz : (L + W - 1) / W = 1 := by
        have hs : L + W - 1 = (L - 1) + W * 1 := by ring
        rw [hs, Int.add_mul_ediv_left _ _ (ne_of_gt hW),
          Int.ediv_eq_zero_of_lt (by linarith) (by linarith), zero_add]
      rw [hz]
      rfl
    obtain ⟨a, ha⟩ := List.length_eq_one.1 hlen
    have h0 := chromWindows_getElem (c := c) (d := df.filter (fun r => r.chromosome == c))
      hW (le_of_lt hL) 0 (by omega)
    simp only [ha, List.getElem_cons_zero] at h0
    rw [ha, h0]
    simp only [List.map_cons, List.map_nil]
    show (((0 : Nat) : Int) * W, min ((((0 : Nat) : Int) + 1) * W) L) :: [] = [(0, L)]
    rw [Nat.cast_zero, zero_mul, zero_add, one_mul, min_eq_right (le_of_lt hLW)]

/-- Witness for C2 on the fixtures: chromosome `Chr6` of length 20000 with
10kb windows gets `ceil(20000/10000) = 2` records, the last ending at 20000. -/
theorem claim_C2_ceil_window_count_witness :
    (testOut.filter (fun w => w.chromosome == "Chr6")).length =
        (((20000 : Int) + 10000 - 1) / 10000).toNat ∧
      ∃ wlast, (testOut.filter (fun w => w.chromosome == "Chr6")).getLast? = some wlast ∧
        wlast.window_end = 20000 :=
  (claim_C2_ceil_window_count testDf testM 10000 "Chr6" 20000 testOut (by decide)
    (by decide) (by decide) (by decide)).1 (by decide)

/-- C3: the emitted windows of a chromosome with `0 < L` and `0 < W` tile
`[0, L)` exactly: the first window starts at 0, each window's end is the
next window's start, the last window ends at `L`, the half-open windows
are pairwise non-overlapping, and when `L` is an exact multiple of `W`
every window has width `W` (no trailing partial window), while otherwise
the trailing window has width `L mod W`, strictly less than `W`, and all
earlier windows have width `W`. -/
theorem claim_C3_windows_tile (df : List FeatureRecord) (m : List (String × Int))
    (W : Int) (c : String) (L : Int) (out : List WindowCountRecord)
    (hnd : (m.map Prod.fst).Nodup) (hmem : (c, L) ∈ m) (hL : 0 < L) (hW : 0 < W)
    (h : count_features_in_windows df m W = some out) :
    (out.filter (fun w => w.chromosome == c) ≠ []) ∧
    (∀ w0, (out.filter (fun w => w.chromosome == c))[0]? = some w0 →
      w0.window_start = 0) ∧
    (∀ i : Nat, ∀ wi wj, (out.filter (fun w => w.chromosome == c))[i]? = some wi →
      (out.filter (fun w => w.chromosome == c))[i + 1]? = some wj →
      wi.window_end = wj.window_start) ∧
    (∃ wlast, (out.filter (fun w => w.chromosome == c)).getLast? = some wlast ∧
      wlast.window_end = L) ∧
    (∀ i j : Nat, ∀ wi wj, i < j →
      (out.filter (fun w => w.chromosome == c))[i]? = some wi →
      (out.filter (fun w => w.chromosome == c))[j]? = some wj →
      wi.window_end ≤ wj.window_start) ∧
    (Int.fmod L W = 0 → ∀ i : Nat, ∀ wi,
      (out.filter (fun w => w.chromosome == c))[i]? = some wi →
      wi.window_end - wi.window_start = W) ∧
    (0 < Int.fmod L W → Int.fmod L W < W ∧
      (∃ wlast, (out.filter (fun w => w.chromosome == c)).getLast? = some wlast ∧
        wlast.window_end - wlast.window_start = Int.fmod L W) ∧
      ∀ i : Nat, ∀ wi wj, (out.filter (fun w => w.chromosome == c))[i]? = some wi →
        (out.filter (fun w => w.chromosome == c))[i + 1]? = some wj →
        wi.window_end - wi.window_start = W) := by
  have hws : out.filter (fun w => w.chromosome == c) =
      chromWindows c (df.filter (fun r => r.chromosome == c)) L W := by
    rw [count_eq_some h]
    exact windowRows_filter_chrom df W hnd hmem
  rw [hws]
  have hL0 : 0 ≤ L := le_of_lt hL
  have hle := chromWindows_length_le c (df.filter (fun r => r.chromosome == c)) L W hW
  refine ⟨?_, ?_, ?_, ?_, ?_, ?_, ?_⟩
  · exact chromWindows_ne_nil c _ hW hL
  · intro w0 hsome
    obtain ⟨hlt, heq⟩ := List.getElem?_eq_some_iff.1 hsome
    subst heq
    rw [chromWindows_getElem hW hL0 0 hlt]
    show ((0 : Nat) : Int) * W = 0
    rw [Nat.cast_zero, zero_mul]
  · intro i wi wj hsi hsj
    obtain ⟨hlti, heqi⟩ := List.getElem?_eq_some_iff.1 hsi
    obtain ⟨hltj, heqj⟩ := List.getElem?_eq_some_iff.1 hsj
    subst heqi
    subst heqj
    have hfe : ((i : Int) + 1) * W ≤ L := chromWindows_full_end hW hL0 (by omega)
    rw [chromWindows_getElem hW hL0 i hlti, chromWindows_getElem hW hL0 (i + 1) hltj]
    show min (((i : Int) + 1) * W) L = (((i + 1 : Nat)) : Int) * W
    rw [min_eq_left hfe]
    push_cast
    ring
  · have hne := chromWindows_ne_nil c (df.filter (fun r => r.chromosome == c)) hW hL
    exact ⟨_, List.getLast?_eq_getLast _ hne, chromWindows_getLast_end _ _ hW hL hne⟩
  · intro i j wi wj hij hsi hsj
    obtain ⟨hlti, heqi⟩ := List.getElem?_eq_some_iff.1 hsi
    obtain ⟨hltj, heqj⟩ := List.getElem?_eq_some_iff.1 hsj
    subst heqi
    subst heqj
    rw [chromWindows_getElem hW hL0 i hlti, chromWindows_getElem hW hL0 j hltj]
    show min (((i : Int) + 1) * W) L ≤ ((j : Nat) : Int) * W
    have hij2 : ((i : Int) + 1) ≤ ((j : Nat) : Int) := by omega
    calc min (((i : Int) + 1) * W) L ≤ ((i : Int) + 1) * W := min_le_left _ _
      _ ≤ ((j : Nat) : Int) * W := mul_le_mul_of_nonneg_right hij2 (le_of_lt hW)
  · intro hrem i wi hsi
    obtain ⟨hlti, heqi⟩ := List.getElem?_eq_some_iff.1 hsi
    subst heqi
    have hrem2 : L % W = 0 := by
      rw [← Int.fmod_eq_emod _ (le_of_lt hW)]
      exact hrem
    have hlen : (chromWindows c (df.filter (fun r => r.chromosome == c)) L W).length =
        (L / W).toNat := by
      rw [chromWindows_length_fdiv _ _ L W hW, if_neg (by omega), Nat.add_zero]
    have hfe : ((i : Int) + 1) * W ≤ L := chromWindows_full_end hW hL0 (by omega)
    rw [chromWindows_getElem hW hL0 i hlti]
    show min (((i : Int) + 1) * W) L - ((i : Nat) : Int) * W = W
    rw [min_eq_left hfe]
    ring
  · intro hrem
    have hrem2 : 0 < L % W := by
      rw [← Int.fmod_eq_emod _ (le_of_lt hW)]
      exact hrem
    have hne := chromWindows_ne_nil c (df.filter (fun r => r.chromosome == c)) hW hL
    have hlen : (chromWindows c (df.filter (fun r => r.chromosome == c)) L W).length =
        (L / W).toNat + 1 := by
      rw [chromWindows_length_fdiv _ _ L W hW, if_pos hrem2]
    refine ⟨Int.fmod_lt_of_pos L hW, ?_, ?_⟩
    · refine ⟨(chromWindows c (df.filter (fun r => r.chromosome == c)) L W).getLast hne,
        List.getLast?_eq_getLast _ hne, ?_⟩
      have hLe := chromWindows_getLast_end c (df.filter (fun r => r.chromosome == c)) hW hL hne
      have hstart : ((chromWindows c (df.filter (fun r => r.chromosome == c)) L W).getLast
          hne).window_start =
          ((((chromWindows c (df.filter (fun r => r.chromosome == c)) L W).length -
            1 : Nat)) : Int) * W := by
        rw [List.getLast_eq_getElem, chromWindows_getElem hW hL0 _ (by omega)]
      rw [hLe, hstart, hlen]
      have hq0 : 0 ≤ L / W := Int.ediv_nonneg hL0 (le_of_lt hW)
      have hc1 : ((L / W).toNat + 1 - 1 : Nat) = (L / W).toNat := by omega
      rw [hc1, Int.toNat_of_nonneg hq0]
      have hq := Int.ediv_add_emod L W
      have hmul : (L / W) * W = W * (L / W) := by ring
      rw [Int.fmod_eq_emod _ (le_of_lt hW)]
      linarith
    · intro i wi wj hsi hsj
      obtain ⟨hlti, heqi⟩ := List.getElem?_eq_some_iff.1 hsi
      obtain ⟨hltj, heqj⟩ := List.getElem?_eq_some_iff.1 hsj
      subst heqi
      have hfe : ((i : Int) + 1) * W ≤ L := chromWindows_full_end hW hL0 (by omega)
      rw [chromWindows_getElem hW hL0 i hlti]
      show min (((i : Int) + 1) * W) L - ((i : Nat) : Int) * W = W
      rw [min_eq_left hfe]
      ring

/-- Witness for C3 on the fixtures, for chromosome `Chr7` (length 15000,
window 10000: a full window then a partial window of width 5000). -/
theorem claim_C3_windows_tile_witness :
    (testOut.filter (fun w => w.chromosome == "Chr7") ≠ []) ∧
    (∀ w0, (testOut.filter (fun w => w.chromosome == "Chr7"))[0]? = some w0 →
      w0.window_start = 0) ∧
    (∀ i : Nat, ∀ wi wj, (testOut.filter (fun w => w.chromosome == "Chr7"))[i]? = some wi →
      (testOut.filter (fun w => w.chromosome == "Chr7"))[i + 1]? = some wj →
      wi.window_end = wj.window_start) ∧
    (∃ wlast, (testOut.filter (fun w => w.chromosome == "Chr7")).getLast? = some wlast ∧
      wlast.window_end = 15000) ∧
    (∀ i j : Nat, ∀ wi wj, i < j →
      (testOut.filter (fun w => w.chromosome == "Chr7"))[i]? = some wi →
      (testOut.filter (fun w => w.chromosome == "Chr7"))[j]? = some wj →
      wi.window_end ≤ wj.window_start) ∧
    (Int.fmod 15000 10000 = 0 → ∀ i : Nat, ∀ wi,
      (testOut.filter (fun w => w.chromosome == "Chr7"))[i]? = some wi →
      wi.window_end - wi.window_start = 10000) ∧
    (0 < Int.fmod 15000 10000 → Int.fmod 15000 10000 < 10000 ∧
      (∃ wlast, (testOut.filter (fun w => w.chromosome == "Chr7")).getLast? = some wlast ∧
        wlast.window_end - wlast.window_start = Int.fmod 15000 10000) ∧
      ∀ i : Nat, ∀ wi wj,
        (testOut.filter (fun w => w.chromosome == "Chr7"))[i]? = some wi →
        (testOut.filter (fun w => w.chromosome == "Chr7"))[i + 1]? = some wj →
        wi.window_end - wi.window_start = 10000) :=
  claim_C3_windows_tile testDf testM 10000 "Chr7" 15000 testOut (by decide) (by decide)
    (by decide) (by decide) (by decide)

theorem countStartsIn_zero_of_le (d : List FeatureRecord) {ws we : Int} (h : we ≤ ws) :
    countStartsIn d ws we = 0 := by
  rw [countStartsIn, List.length_eq_zero]
  apply List.filter_eq_nil_iff.2
  intro r _
  intro hcond
  have hc := of_decide_eq_true hcond
  omega

theorem countStartsIn_split (d : List FeatureRecord) {a b e : Int}
    (hab : a ≤ b) (hbe : b ≤ e) :
    countStartsIn d a b + countStartsIn d b e = countStartsIn d a e := by
  induction d with
  | nil => rfl
  | cons r rows ih =>
    rw [countStartsIn_cons, countStartsIn_cons, countStartsIn_cons]
    split_ifs <;> omega

theorem sum_counts_range (d : List FeatureRecord) {W : Int} (hW : 0 < W) (k : Nat) :
    ((List.range k).map
        (fun i : Nat => countStartsIn d ((i : Int) * W) (((i : Int) + 1) * W))).sum =
      countStartsIn d 0 ((k : Int) * W) := by
  induction k with
  | zero =>
    rw [List.range_zero, List.map_nil, List.sum_nil]
    rw [countStartsIn_zero_of_le d (by simp)]
  | succ k ih =>
    rw [List.range_succ, List.map_append, List.sum_append, ih, List.map_cons,
      List.map_nil, List.sum_cons, List.sum_nil, Nat.add_zero]
    have h0k : (0 : Int) ≤ (k : Int) * W :=
      mul_nonneg (Int.natCast_nonneg k) (le_of_lt hW)
    have hkk : (k : Int) * W ≤ ((k : Int) + 1) * W :=
      mul_le_mul_of_nonneg_right (by linarith) (le_of_lt hW)
    rw [countStartsIn_split d h0k hkk]
    congr 1

theorem chromWindows_sum (c : String) (d : List FeatureRecord) {L W : Int}
    (hW : 0 < W) (hL : 0 ≤ L) :
    ((chromWindows c d L W).map (fun w => w.feature_count)).sum =
      countStartsIn d 0 L := by
  have hdiv : Int.fdiv L W = L / W := Int.fdiv_eq_ediv L (le_of_lt hW)
  have hmod : Int.fmod L W = L % W := Int.fmod_eq_emod L (le_of_lt hW)
  have hq0 : 0 ≤ L / W := Int.ediv_nonneg hL (le_of_lt hW)
  have hq := Int.ediv_add_emod L W
  have hcast : (((Int.fdiv L W).toNat : Nat) : Int) = L / W := by
    rw [hdiv, Int.toNat_of_nonneg hq0]
  simp only [chromWindows]
  by_cases hrem : Int.fmod L W > 0
  · simp only [if_pos hrem]
    rw [List.map_append, List.sum_append, List.map_map]
    have hcomp : ((fun w : WindowCountRecord => w.feature_count) ∘ fun i : Nat =>
        ({ chromosome := c, window_start := (i : Int) * W,
           window_end := ((i : Int) + 1) * W,
           feature_count := countStartsIn d ((i : Int) * W)
             (((i : Int) + 1) * W) } : WindowCountRecord)) =
        fun i : Nat => countStartsIn d ((i : Int) * W) (((i : Int) + 1) * W) := rfl
    rw [hcomp, sum_counts_range d hW, List.map_cons, List.map_nil, List.sum_cons,
      List.sum_nil, Nat.add_zero, hcast, hdiv]
    have h0q : (0 : Int) ≤ (L / W) * W := mul_nonneg hq0 (le_of_lt hW)
    have hqL : (L / W) * W ≤ L := Int.ediv_mul_le L (ne_of_gt hW)
    exact countStartsIn_split d h0q hqL
  · simp only [if_neg hrem]
    rw [List.map_map]
    have hcomp : ((fun w : WindowCountRecord => w.feature_count) ∘ fun i : Nat =>
        ({ chromosome := c, window_start := (i : Int) * W,
           window_end := ((i : Int) + 1) * W,
           feature_count := countStartsIn d ((i : Int) * W)
             (((i : Int) + 1) * W) } : WindowCountRecord)) =
        fun i : Nat => countStartsIn d ((i : Int) * W) (((i : Int) + 1) * W) := rfl
    rw [hcomp, sum_counts_range d hW, hcast]
    have hr0 : 0 ≤ L % W := Int.emod_nonneg L (ne_of_gt hW)
    have hrz : L % W = 0 := by omega
    have hqW : (L / W) * W = L := by linarith [hq, mul_comm (L / W) W]
    rw [hqW]

/-- C4: for a chromosome of the length map (length `L ≥ 0`, per the data
model) and window size `W > 0`, the per-chromosome feature counts sum to
the number of that chromosome's rows whose start lies in `[0, L)`: each
such feature is counted in exactly one window, and features with start
outside `[0, L)` are counted nowhere while causing no error. -/
theorem claim_C4_counts_partition_features (df : List FeatureRecord)
    (m : List (String × Int)) (W : Int) (c : String) (L : Int)
    (out : List WindowCountRecord)
    (hnd : (m.map Prod.fst).Nodup) (hmem : (c, L) ∈ m) (hW : 0 < W) (hL : 0 ≤ L)
    (h : count_features_in_windows df m W = some out) :
    ((out.filter (fun w => w.chromosome == c)).map (fun w => w.feature_count)).sum =
      (df.filter (fun r =>
        r.chromosome = c ∧ 0 ≤ r.start ∧ r.start < L)).length := by
  have hws : out.filter (fun w => w.chromosome == c) =
      chromWindows c (df.filter (fun r => r.chromosome == c)) L W := by
    rw [count_eq_some h]
    exact windowRows_filter_chrom df W hnd hmem
  rw [hws, chromWindows_sum c _ hW hL]
  simp only [countStartsIn, List.filter_filter]
  congr 1
  apply List.filter_congr
  intro r _
  by_cases h1 : r.chromosome = c <;> by_cases h2 : (0 : Int) ≤ r.start <;>
    by_cases h3 : r.start < L <;> simp [h1, h2, h3]

/-- Witness for C4 on the fixtures: the two `Chr6` counts 4 and 1 sum to
the five in-range `Chr6` features. -/
theorem claim_C4_counts_partition_features_witness :
    ((testOut.filter (fun w => w.chromosome == "Chr6")).map
        (fun w => w.feature_count)).sum =
      (testDf.filter (fun r =>
        r.chromosome = "Chr6" ∧ 0 ≤ r.start ∧ r.start < 20000)).length :=
  claim_C4_counts_partition_features testDf testM 10000 "Chr6" 20000 testOut
    (by decide) (by decide) (by decide) (by decide) (by decide)

/-- C5: the output records are ordered by chromosome name in ascending
lexicographic order and, within a chromosome, by ascending window start,
regardless of the insertion order of the length map (window size positive
and lengths non-negative, per the data model). -/
theorem claim_C5_output_ordered (df : List FeatureRecord) (m : List (String × Int))
    (W : Int) (out : List WindowCountRecord)
    (hnd : (m.map Prod.fst).Nodup) (hW : 0 < W) (hlen : ∀ p ∈ m, 0 ≤ p.2)
    (h : count_features_in_windows df m W = some out) :
    out.Pairwise (fun a b => a.chromosome < b.chromosome ∨
      (a.chromosome = b.chromosome ∧ a.window_start < b.window_start)) := by
  rw [count_eq_some h]
  unfold windowRows
  rw [List.pairwise_flatMap]
  constructor
  · intro k hk
    rcases hcase : m.lookup k with _ | L
    · exact List.Pairwise.nil
    · have hL : 0 ≤ L := hlen (k, L) (lookup_mem hcase)
      show List.Pairwise _ (chromWindows k (df.filter (fun r => r.chromosome == k)) L W)
      rw [List.pairwise_iff_getElem]
      intro i j hi hj hij
      rw [chromWindows_getElem hW hL i hi, chromWindows_getElem hW hL j hj]
      right
      refine ⟨rfl, ?_⟩
      show ((i : Nat) : Int) * W < ((j : Nat) : Int) * W
      have hij2 : ((i : Nat) : Int) < ((j : Nat) : Int) := by omega
      exact mul_lt_mul_of_pos_right hij2 hW
  · have hperm := pySorted_perm (m.map Prod.fst)
    have hnd2 : (pySorted (m.map Prod.fst)).Nodup := hperm.nodup_iff.2 hnd
    have hsorted : (pySorted (m.map Prod.fst)).Pairwise (fun a b => strLe a b = true) :=
      List.sorted_insertionSort _ _
    have hlt : (pySorted (m.map Prod.fst)).Pairwise (fun a b => a < b) :=
      (hsorted.and hnd2).imp
        (fun hab => lt_of_le_of_ne ((strLe_iff_le _ _).1 hab.1) hab.2)
    apply hlt.imp
    intro a b hab x hx y hy
    left
    rcases hcasea : m.lookup a with _ | La
    · rw [hcasea] at hx
      exact absurd hx (List.not_mem_nil x)
    · rcases hcaseb : m.lookup b with _ | Lb
      · rw [hcaseb] at hy
        exact absurd hy (List.not_mem_nil y)
      · rw [hcasea] at hx
        rw [hcaseb] at hy
        have hxc : x.chromosome = a := (mem_chromWindows hx).1
        have hyc : y.chromosome = b := (mem_chromWindows hy).1
        rw [hxc, hyc]
        exact hab

/-- Witness for C5 on the fixtures: a length map given in the order
`Chr7, Chr6` still yields output sorted `Chr6` before `Chr7`. -/
theorem claim_C5_output_ordered_witness :
    testOut.Pairwise (fun a b => a.chromosome < b.chromosome ∨
      (a.chromosome = b.chromosome ∧ a.window_start < b.window_start)) :=
  claim_C5_output_ordered testDf testM 10000 testOut (by decide) (by decide)
    (by decide) (by decide)
